import Mathlib

set_option maxRecDepth 100000
set_option maxHeartbeats 4000000

/-
Verification development for the Blakecoin repository.

Part 1 embeds the hash engine of src/src/crypto/blake256.cpp (class
CBlake256: Reset, compress, Write, Finalize) as executable Lean
functions.  Machine words uint32_t are modelled as Nat taken modulo
2^32; byte buffers are lists of Nat; the member state of CBlake256 is
the structure HashState.  The two while-loops inside Finalize are
modelled with an explicit fuel argument, and Finalize returns none
when a loop does not terminate within the given fuel.

Part 2 embeds the difficulty controller of the pow translation unit
(GetNextWorkRequired, CalculateNextWorkRequired, CheckProofOfWork).
The helper types arith_uint256 and Consensus::Params are not part of
the provided sources, so their needed operations are modelled from the
specification (Bitcoin-style compact nBits encoding, consensus
parameter record); those definitions carry a doc comment saying so.
-/

namespace Blakecoin

/-- Modulus of a 32-bit machine word. -/
def M32 : Nat := 4294967296

/-- Modulus of a 64-bit machine word. -/
def M64 : Nat := 18446744073709551616

/-- Table blake256_iv of src/src/crypto/blake256.cpp. -/
def blake256_iv : List Nat :=
  [0x6a09e667, 0xbb67ae85, 0x3c6ef372, 0xa54ff53a,
   0x510e527f, 0x9b05688c, 0x1f83d9ab, 0x5be0cd19]

/-- Table blake256_sigma of src/src/crypto/blake256.cpp (14 rows). -/
def blake256_sigma : List (List Nat) :=
  [[0, 1, 2, 3, 4, 5, 6, 7, 8, 9, 10, 11, 12, 13, 14, 15],
   [14, 10, 4, 8, 9, 15, 13, 6, 1, 12, 0, 2, 11, 7, 5, 3],
   [11, 8, 12, 0, 5, 2, 15, 13, 10, 14, 3, 6, 7, 1, 9, 4],
   [7, 9, 3, 1, 13, 12, 11, 14, 2, 6, 5, 10, 4, 0, 15, 8],
   [9, 0, 5, 7, 2, 4, 10, 15, 14, 1, 11, 12, 6, 8, 3, 13],
   [2, 12, 6, 10, 0, 11, 8, 3, 4, 13, 7, 5, 15, 14, 1, 9],
   [12, 5, 1, 15, 14, 13, 4, 10, 0, 7, 6, 3, 9, 2, 8, 11],
   [13, 11, 7, 14, 12, 1, 3, 9, 5, 0, 15, 4, 8, 6, 2, 10],
   [6, 15, 14, 9, 11, 3, 0, 8, 12, 2, 13, 7, 1, 4, 10, 5],
   [10, 2, 8, 4, 7, 6, 1, 5, 15, 11, 9, 14, 3, 12, 13, 0],
   [0, 1, 2, 3, 4, 5, 6, 7, 8, 9, 10, 11, 12, 13, 14, 15],
   [14, 10, 4, 8, 9, 15, 13, 6, 1, 12, 0, 2, 11, 7, 5, 3],
   [11, 8, 12, 0, 5, 2, 15, 13, 10, 14, 3, 6, 7, 1, 9, 4],
   [7, 9, 3, 1, 13, 12, 11, 14, 2, 6, 5, 10, 4, 0, 15, 8]]

/-- Table blake256_cst of src/src/crypto/blake256.cpp. -/
def blake256_cst : List Nat :=
  [0x243f6a88, 0x85a308d3, 0x13198a2e, 0x03707344,
   0xa4093822, 0x299f31d0, 0x082efa98, 0xec4e6c89,
   0x452821e6, 0x38d01377, 0xbe5466cf, 0x34e90c6c,
   0xc0ac29b7, 0xc97c50dd, 0x3f84d5b5, 0xb5470917]

/-- Array read with the out-of-range default 0 (array reads in the C
code are always in range). -/
def nth (l : List Nat) (i : Nat) : Nat := l.getD i 0

/-- Lookup blake256_sigma[e][i]. -/
def sig (e i : Nat) : Nat := (blake256_sigma.getD e []).getD i 0

/-- Macro ROT of src/src/crypto/blake256.cpp: a 32-bit right rotation
written as shifts, with the left shift wrapping modulo 2^32. -/
def rot (x n : Nat) : Nat := ((x <<< (32 - n)) % M32) ||| (x >>> n)

/-- Macro G of src/src/crypto/blake256.cpp, acting on the working
vector v; e is the round index and i the position offset. -/
def G (m : List Nat) (e i a b c d : Nat) (v : List Nat) : List Nat :=
  let v := v.set a ((nth v a + (nth m (sig e i) ^^^ nth blake256_cst (sig e (i+1))) + nth v b) % M32)
  let v := v.set d (rot (nth v d ^^^ nth v a) 16)
  let v := v.set c ((nth v c + nth v d) % M32)
  let v := v.set b (rot (nth v b ^^^ nth v c) 12)
  let v := v.set a ((nth v a + (nth m (sig e (i+1)) ^^^ nth blake256_cst (sig e i)) + nth v b) % M32)
  let v := v.set d (rot (nth v d ^^^ nth v a) 8)
  let v := v.set c ((nth v c + nth v d) % M32)
  let v := v.set b (rot (nth v b ^^^ nth v c) 7)
  v

/-- Body of the round loop of CBlake256::compress: the eight G calls
of round r, in source order. -/
def round14 (m : List Nat) (r : Nat) (v : List Nat) : List Nat :=
  G m r 10 1 6 11 12 (G m r 8 0 5 10 15 (G m r 12 2 7 8 13 (G m r 14 3 4 9 14
    (G m r 6 3 7 11 15 (G m r 4 2 6 10 14 (G m r 2 1 5 9 13 (G m r 0 0 4 8 12 v)))))))

/-- Member state of class CBlake256 (blake256.h): chain values h,
counters t, the 64-byte buffer, the fill count buflen and the nullt
flag.  The C buffer is an uninitialized 64-byte array; it is modelled
as a list of 64 bytes that starts as zeros, which is sound because the
code never reads a buffer position it has not written. -/
structure HashState where
  h : List Nat
  t0 : Nat
  t1 : Nat
  buf : List Nat
  buflen : Nat
  nullt : Bool
deriving DecidableEq, Repr

/-- CBlake256::Reset. -/
def Reset : HashState :=
  { h := blake256_iv, t0 := 0, t1 := 0, buf := List.replicate 64 0, buflen := 0, nullt := false }

/-- Byte-to-word conversion loop of CBlake256::compress: word i is
built from bytes 4i..4i+3 with byte 4i as the least significant. -/
def bytesToWordsLE (block : List Nat) : List Nat :=
  (List.range 16).map fun i =>
    nth block (i*4) ||| (nth block (i*4+1) <<< 8) ||| (nth block (i*4+2) <<< 16) ||| (nth block (i*4+3) <<< 24)

/-- CBlake256::compress.  Only the h field of the state changes. -/
def compress (st : HashState) (block : List Nat) : HashState :=
  let m := bytesToWordsLE block
  let v := st.h ++ blake256_iv
  let v := v.set 12 (nth v 12 ^^^ st.t0)
  let v := v.set 13 (nth v 13 ^^^ st.t1)
  let v := if st.nullt then v.set 14 (nth v 14 ^^^ (M32 - 1)) else v
  let v := (List.range 14).foldl (fun w r => round14 m r w) v
  { st with h := (List.range 8).map fun i => nth st.h i ^^^ nth v i ^^^ nth v (i+8) }

/-- Counter update of CBlake256::Write: t[0] += 512 and, when t[0]
wraps to zero, t[1] is incremented; both words are 32 bits. -/
def addT512 (st : HashState) : HashState :=
  let t0 := (st.t0 + 512) % M32
  { st with t0 := t0, t1 := if t0 = 0 then (st.t1 + 1) % M32 else st.t1 }

/-- While-loop of CBlake256::Write that compresses full 64-byte chunks
directly from the input.  The fuel argument only bounds the recursion;
any fuel at least the length of the data is enough. -/
def writeBlocks : Nat → HashState → List Nat → HashState × List Nat
  | 0, st, data => (st, data)
  | fuel+1, st, data =>
    if 64 ≤ data.length then
      writeBlocks fuel (compress (addT512 st) (data.take 64)) (data.drop 64)
    else (st, data)

/-- Memcpy of the byte list bytes into buf starting at position pos. -/
def setRange (buf : List Nat) (pos : Nat) (bytes : List Nat) : List Nat :=
  buf.take pos ++ bytes ++ buf.drop (pos + bytes.length)

/-- CBlake256::Write.  Note the translation is faithful to the source,
including the fact that when a call consumes its data exactly at a
block boundary the member buflen is left at its previous value (the
final if of the source only assigns buflen when len is positive). -/
def Write (st : HashState) (data : List Nat) : HashState :=
  let left := st.buflen
  let fill := 64 - left
  if left ≠ 0 ∧ fill ≤ data.length then
    let buf1 := setRange st.buf left (data.take fill)
    let st1 := compress (addT512 { st with buf := buf1 }) buf1
    let rest0 := data.drop fill
    let p := writeBlocks rest0.length st1 rest0
    if 0 < p.2.length then { p.1 with buf := setRange p.1.buf 0 p.2, buflen := p.2.length }
    else p.1
  else
    let p := writeBlocks data.length st data
    if 0 < p.2.length then { p.1 with buf := setRange p.1.buf left p.2, buflen := left + p.2.length }
    else p.1

/-- Big-endian byte serialization of a 32-bit word. -/
def be32 (x : Nat) : List Nat := [(x >>> 24) % 256, (x >>> 16) % 256, (x >>> 8) % 256, x % 256]

/-- Statement t[0] -= x of CBlake256::Finalize, on a 32-bit word. -/
def subT0 (st : HashState) (x : Nat) : HashState :=
  { st with t0 := (st.t0 + (M32 - x % M32)) % M32 }

/-- Loop of CBlake256::Finalize writing zero bytes while buflen < 55;
none means the fuel ran out before the loop condition became false. -/
def padTo55 : Nat → HashState → Option HashState
  | 0, st => if 55 ≤ st.buflen then some st else none
  | f+1, st => if 55 ≤ st.buflen then some st else padTo55 f (Write st [0x00])

/-- Loop of CBlake256::Finalize writing zero bytes while buflen is not
zero; none means the fuel ran out before the loop condition became
false. -/
def padWhileNonzero : Nat → HashState → Option HashState
  | 0, st => if st.buflen = 0 then some st else none
  | f+1, st => if st.buflen = 0 then some st else padWhileNonzero f (Write st [0x00])

/-- Loop of CBlake256::Finalize writing zero bytes while buflen < 54;
none means the fuel ran out before the loop condition became false. -/
def padTo54 : Nat → HashState → Option HashState
  | 0, st => if 54 ≤ st.buflen then some st else none
  | f+1, st => if 54 ≤ st.buflen then some st else padTo54 f (Write st [0x00])

/-- Output loop of CBlake256::Finalize: the eight chain words as
big-endian bytes. -/
def outBytes (st : HashState) : List Nat :=
  ((List.range 8).map fun i => be32 (nth st.h i)).flatten

/-- CBlake256::Finalize.  The fuel bounds the two inner while-loops;
the result is none exactly when some loop fails to finish within the
fuel (the loop over nonzero buflen never finishes, see claim C3). -/
def Finalize (fuel : Nat) (st : HashState) : Option (List Nat) :=
  let lo := (st.t0 + (st.buflen <<< 3)) % M32
  let hi := if lo < st.buflen <<< 3 then (st.t1 + 1) % M32 else st.t1
  let msglen := be32 hi ++ be32 lo
  let padded : Option HashState :=
    if st.buflen = 55 then
      some (Write (subT0 st 8) [0x81])
    else
      let mid : Option HashState :=
        if st.buflen < 55 then
          let s1 := if st.buflen = 0 then { st with nullt := true } else st
          padTo55 fuel (Write (subT0 s1 (440 - (st.buflen <<< 3))) [0x01])
        else
          match padWhileNonzero fuel (Write (subT0 st (512 - (st.buflen <<< 3))) [0x01]) with
          | none => none
          | some s2 => some { subT0 s2 440 with nullt := true }
      match mid with
      | none => none
      | some s3 => padTo54 fuel (Write s3 [0x00])
  match padded with
  | none => none
  | some s4 => some (outBytes (Write (subT0 s4 64) msglen))

/-- Whole-message hashing: Reset, one Write, Finalize (fuel 128 is
more than any terminating Finalize needs). -/
def Hashblake (msg : List Nat) : Option (List Nat) := Finalize 128 (Write Reset msg)

/-
Reference algorithm of claim C1, written out from the wording of the
specification rather than from the source: an explicit G mixing step
taking the two message words and the two constants as parameters, a
round as the fixed column and diagonal pattern of eight G calls with
the cross-wired sigma and constant pairing, and the compression
function built from them.
-/

/-- G mixing step of the specification, for inputs
(a, b, c, d, msgIdx0, msgIdx1, cst0, cst1), taking the words
m0 = m[msgIdx0], m1 = m[msgIdx1], c0 = cst[cst0], c1 = cst[cst1]
directly: v[a] += (m0 XOR c1) + v[b]; v[d] = ROTR(v[d] XOR v[a], 16);
v[c] += v[d]; v[b] = ROTR(v[b] XOR v[c], 12); v[a] += (m1 XOR c0) + v[b];
v[d] = ROTR(v[d] XOR v[a], 8); v[c] += v[d]; v[b] = ROTR(v[b] XOR v[c], 7). -/
def specG (m0 m1 c0 c1 a b c d : Nat) (v : List Nat) : List Nat :=
  let v := v.set a ((nth v a + (m0 ^^^ c1) + nth v b) % M32)
  let v := v.set d (rot (nth v d ^^^ nth v a) 16)
  let v := v.set c ((nth v c + nth v d) % M32)
  let v := v.set b (rot (nth v b ^^^ nth v c) 12)
  let v := v.set a ((nth v a + (m1 ^^^ c0) + nth v b) % M32)
  let v := v.set d (rot (nth v d ^^^ nth v a) 8)
  let v := v.set c ((nth v c + nth v d) % M32)
  let v := v.set b (rot (nth v b ^^^ nth v c) 7)
  v

/-- Fixed column/diagonal pattern of the specification: the (a,b,c,d)
quadruple and the position offset i of each of the eight G calls of a
round. -/
def specPattern : List (Nat × Nat × Nat × Nat × Nat) :=
  [(0, 4, 8, 12, 0), (1, 5, 9, 13, 2), (2, 6, 10, 14, 4), (3, 7, 11, 15, 6),
   (3, 4, 9, 14, 14), (2, 7, 8, 13, 12), (0, 5, 10, 15, 8), (1, 6, 11, 12, 10)]

/-- One round of the specification: the eight G calls over the fixed
pattern, where the call at offset i consumes message words
m[sigma[r][i]], m[sigma[r][i+1]] and constants cst[sigma[r][i]],
cst[sigma[r][i+1]] (cross-wired inside specG). -/
def specRound (m : List Nat) (r : Nat) (v : List Nat) : List Nat :=
  specPattern.foldl
    (fun w p =>
      specG (nth m (sig r p.2.2.2.2)) (nth m (sig r (p.2.2.2.2 + 1)))
        (nth blake256_cst (sig r p.2.2.2.2)) (nth blake256_cst (sig r (p.2.2.2.2 + 1)))
        p.1 p.2.1 p.2.2.1 p.2.2.2.1 w)
    v

/-- Little-endian word parsing of the specification: word i is built
from bytes i*4..i*4+3 with byte i*4 as the least significant,
consistent with the shift pattern the specification describes. -/
def specWords (block : List Nat) : List Nat :=
  (List.range 16).map fun i =>
    nth block (i*4) ||| (nth block (i*4+1) <<< 8) ||| (nth block (i*4+2) <<< 16) ||| (nth block (i*4+3) <<< 24)

/-- Compression function of the specification (claim C1): parse the
block into sixteen little-endian words, set v[0..7] = h[0..7] and
v[8..15] = IV[0..7], XOR t[0] into v[12] and t[1] into v[13],
complement v[14] when the null-t flag is set, run 14 rounds, and fold
back h[i] XOR= v[i] XOR v[i+8]; the result is the new chain value
vector. -/
def specCompress (hv : List Nat) (t0 t1 : Nat) (nullt : Bool) (block : List Nat) : List Nat :=
  let m := specWords block
  let v := hv ++ blake256_iv
  let v := v.set 12 (nth v 12 ^^^ t0)
  let v := v.set 13 (nth v 13 ^^^ t1)
  let v := if nullt then v.set 14 (nth v 14 ^^^ (M32 - 1)) else v
  let v := (List.range 14).foldl (fun w r => specRound m r w) v
  (List.range 8).map fun i => nth hv i ^^^ nth v i ^^^ nth v (i+8)

/-
Published Blake-256 reference, for claim C2.  The published 14-round
Blake-256 algorithm is not part of the provided sources (the spec only
cites its test vectors), so it is modelled here from the published
specification: big-endian message word parsing, working vector
initialized from the first eight round constants, counter words XORed
as t0 into v[12] and v[13] and t1 into v[14] and v[15] unless the
final block holds no message bits, and the padding 0x80, zeros, 0x01,
64-bit big-endian length.  It shares the round function round14 with
the code embedding (the rounds of the source are the published ones;
the deviations of the source lie elsewhere).
-/

/-- Modelled from the spec: big-endian word parsing of published
Blake-256 (byte 4i is the most significant byte of word i). -/
def bytesToWordsBE (block : List Nat) : List Nat :=
  (List.range 16).map fun i =>
    (nth block (i*4) <<< 24) ||| (nth block (i*4+1) <<< 16) ||| (nth block (i*4+2) <<< 8) ||| nth block (i*4+3)

/-- Modelled from the spec: the published Blake-256 compression
function (no salt), with nullt meaning the block holds no message
bits. -/
def refCompress (hh : List Nat) (t0 t1 : Nat) (nullt : Bool) (block : List Nat) : List Nat :=
  let m := bytesToWordsBE block
  let v := hh ++ blake256_cst.take 8
  let v :=
    if nullt then v
    else
      let v := v.set 12 (nth v 12 ^^^ t0)
      let v := v.set 13 (nth v 13 ^^^ t0)
      let v := v.set 14 (nth v 14 ^^^ t1)
      v.set 15 (nth v 15 ^^^ t1)
  let v := (List.range 14).foldl (fun w r => round14 m r w) v
  (List.range 8).map fun i => nth hh i ^^^ nth v i ^^^ nth v (i+8)

/-- Modelled from the spec: published Blake-256 processing of the full
64-byte message blocks, threading the bit counter. -/
def refFull : Nat → List Nat → List Nat → Nat → List Nat × List Nat × Nat
  | 0, hh, rest, t => (hh, rest, t)
  | f+1, hh, rest, t =>
    if 64 ≤ rest.length then
      refFull f (refCompress hh ((t+512) % M32) ((t+512) / M32) false (rest.take 64)) (rest.drop 64) (t+512)
    else (hh, rest, t)

/-- Modelled from the spec: the published 14-round Blake-256 digest of
a message whose length modulo 64 is at most 54 (which covers every
test vector used below): full blocks are compressed with the running
bit counter, the final block is tail ++ 0x80 ++ zeros ++ 0x01 ++ the
64-bit big-endian bit length, compressed with the counter equal to the
total bit length, flagged null when the message is empty. -/
def refHash (msg : List Nat) : List Nat :=
  let L := 8 * msg.length
  let fb := refFull msg.length blake256_iv msg 0
  let tail := fb.2.1
  let finalBlock := tail ++ [0x80] ++ List.replicate (54 - tail.length) 0 ++ [0x01]
    ++ be32 (L / M32) ++ be32 (L % M32)
  let hh2 := refCompress fb.1 (L % M32) (L / M32) msg.isEmpty finalBlock
  ((List.range 8).map fun i => be32 (nth hh2 i)).flatten

/-- Published 14-round Blake-256 digest of the empty message,
716f6e863f744b9ac22c97ec7b76ea5f5908bc5b2f67c61510bfc4751384ea7a. -/
def publishedEmptyDigest : List Nat :=
  [113, 111, 110, 134, 63, 116, 75, 154, 194, 44, 151, 236, 123, 118, 234, 95,
   89, 8, 188, 91, 47, 103, 198, 21, 16, 191, 196, 117, 19, 132, 234, 122]

/-- Published 14-round Blake-256 digest of the one-block message of a
single zero byte (test vector of the Blake submission),
0ce8d4ef4dd7cd8d62dfded9d4edb0a774ae6a41929a74da23109e8f11139c87. -/
def publishedOneZeroDigest : List Nat :=
  [12, 232, 212, 239, 77, 215, 205, 141, 98, 223, 222, 217, 212, 237, 176, 167,
   116, 174, 106, 65, 146, 154, 116, 218, 35, 16, 158, 143, 17, 19, 156, 135]

/-- Published 14-round Blake-256 digest of 72 zero bytes (test vector
of the Blake submission),
d419bad32d504fb7d44d460c42c5593fe544fa4c135dec31e21bd9abdcc22d41. -/
def published72ZeroDigest : List Nat :=
  [212, 25, 186, 211, 45, 80, 79, 183, 212, 77, 70, 12, 66, 197, 89, 63,
   229, 68, 250, 76, 19, 93, 236, 49, 226, 27, 217, 171, 220, 194, 45, 65]

/-- ASCII bytes of the string BLAKE. -/
def blakeAscii : List Nat := [0x42, 0x4c, 0x41, 0x4b, 0x45]

/-- Value of the 64-bit bit-length counter of a hash state: t1 is the
high word, t0 the low word. -/
def ctr64 (st : HashState) : Nat := st.t1 * M32 + st.t0

/-
Part 2: the difficulty controller (pow translation unit of the
sources).  256-bit unsigned arith_uint256 values are modelled as Nat
modulo 2^256; block heights and times are Int (int64_t in the source,
whose overflow is irrelevant at consensus scales).  The class
arith_uint256 and the struct Consensus::Params are not part of the
provided sources, so SetCompact, GetCompact and the parameter record
are modelled from the specification (Bitcoin-style compact encoding:
one byte of exponent, three bytes of mantissa, a sign bit).
-/

/-- Modulus of a 256-bit value. -/
def M256 : Nat := 2 ^ 256

/-- Modelled from the spec: the Consensus::Params fields the
controller reads (target spacing, target timespan, power limit, the
testnet minimum-difficulty flag and the regtest no-retargeting
flag). -/
structure ConsensusParams where
  powLimit : Nat
  nPowTargetTimespan : Int
  nPowTargetSpacing : Int
  fPowAllowMinDifficultyBlocks : Bool
  fPowNoRetargeting : Bool
deriving DecidableEq, Repr

/-- Modelled from the spec: the value decoded from a compact nBits
field (Bitcoin-style encoding: exponent byte nSize, 23-bit mantissa
shifted by 8*(nSize-3) bytes, truncated to 256 bits). -/
def setCompactValue (nCompact : Nat) : Nat :=
  let nSize := nCompact >>> 24
  let nWord := nCompact &&& 0x007fffff
  if nSize ≤ 3 then nWord >>> (8 * (3 - nSize))
  else (nWord <<< (8 * (nSize - 3))) % M256

/-- Modelled from the spec: the negative flag of compact decoding (the
sign bit 0x00800000 is set and the mantissa is nonzero). -/
def setCompactNegative (nCompact : Nat) : Bool :=
  decide (nCompact &&& 0x007fffff ≠ 0) && decide (nCompact &&& 0x00800000 ≠ 0)

/-- Modelled from the spec: the overflow flag of compact decoding (the
mantissa/exponent combination does not fit in 256 bits). -/
def setCompactOverflow (nCompact : Nat) : Bool :=
  let nSize := nCompact >>> 24
  let nWord := nCompact &&& 0x007fffff
  decide (nWord ≠ 0) &&
    (decide (34 < nSize) || (decide (0xff < nWord) && decide (33 < nSize)) ||
      (decide (0xffff < nWord) && decide (32 < nSize)))

/-- Fuel-bounded binary length: bitLenAux f n is the bit length of n
whenever n < 2^f. -/
def bitLenAux : Nat → Nat → Nat
  | 0, _ => 0
  | f+1, n => if n = 0 then 0 else bitLenAux f (n / 2) + 1

/-- Bit length of a 256-bit value (method bits of arith_uint256). -/
def bits256 (n : Nat) : Nat := bitLenAux 256 (n % M256)

/-- Modelled from the spec: compact encoding of a 256-bit target
(method GetCompact of arith_uint256 for a non-negative value): take
the top three bytes as mantissa, bump the exponent when the mantissa
would have the sign bit set, and pack exponent and mantissa. -/
def GetCompact (n : Nat) : Nat :=
  let nSize := (bits256 n + 7) / 8
  let c := if nSize ≤ 3 then (n % M64) <<< (8 * (3 - nSize))
           else (n >>> (8 * (nSize - 3))) % M64
  let c2 := if c &&& 0x00800000 ≠ 0 then c >>> 8 else c
  let nSize2 := if c &&& 0x00800000 ≠ 0 then nSize + 1 else nSize
  c2 ||| (nSize2 <<< 24)

/-- CheckProofOfWork of the pow translation unit.  The uint256 hash is
modelled directly as its 256-bit little-endian integer value (the
conversion UintToArith256 is the identity on that value). -/
def CheckProofOfWork (hash : Nat) (nBits : Nat) (params : ConsensusParams) : Bool :=
  let fNegative := setCompactNegative nBits
  let fOverflow := setCompactOverflow nBits
  let bnTarget := setCompactValue nBits
  if fNegative = true ∨ bnTarget = 0 ∨ fOverflow = true ∨ params.powLimit < bnTarget then false
  else if bnTarget < hash then false
  else true

/-- Timespan clamping block of CalculateNextWorkRequired, verbatim
from the source: the 3 percent floor when blocks are too fast and the
height is at least 3500, the 15 percent floor below height 3500 and
the unconditional 50 percent ceiling.  Division is C truncated
division (Int.tdiv). -/
def clampTimespan (nActualTimespan nHeight nTargetTimespan : Int) : Int :=
  let nMinActualTimespan := (nTargetTimespan * 100).tdiv 115
  let nMinActualTimespan3Pct := (nTargetTimespan * 100).tdiv 103
  let nMaxActualTimespan := nTargetTimespan * 2
  let a :=
    if nActualTimespan < nTargetTimespan.tdiv 4 ∧ 3500 ≤ nHeight then nMinActualTimespan3Pct
    else if nActualTimespan < nMinActualTimespan ∧ nHeight < 3500 then nMinActualTimespan
    else nActualTimespan
  if nMaxActualTimespan < a then nMaxActualTimespan else a

/-- Record of the CBlockIndex fields the controller reads (height,
time, nBits); the ancestor chain itself is passed as a list. -/
structure BlockIndexRec where
  nHeight : Int
  nTime : Int
  nBits : Nat
deriving DecidableEq, Repr

/-- CalculateNextWorkRequired of the pow translation unit.  The
multiplication and division on arith_uint256 go through the int64 to
uint64 conversion of the source (reduction modulo 2^64) and the
product wraps modulo 2^256. -/
def CalculateNextWorkRequired (pindexLast : BlockIndexRec) (nFirstBlockTime : Int)
    (params : ConsensusParams) : Nat :=
  if params.fPowNoRetargeting then pindexLast.nBits
  else
    let nActualTimespan :=
      clampTimespan (pindexLast.nTime - nFirstBlockTime) pindexLast.nHeight params.nPowTargetTimespan
    let bnNew := (setCompactValue pindexLast.nBits * (nActualTimespan.emod M64).toNat) % M256
    let bnNew := bnNew / (params.nPowTargetTimespan.emod M64).toNat
    let bnNew := if params.powLimit < bnNew then params.powLimit else bnNew
    GetCompact bnNew

/-- Modelled from the spec: the retarget interval of Consensus::Params
(method DifficultyAdjustmentInterval, the target timespan divided by
the target spacing; 3600 / 180 = 20 blocks for Blakecoin). -/
def DifficultyAdjustmentInterval (params : ConsensusParams) : Int :=
  params.nPowTargetTimespan.tdiv params.nPowTargetSpacing

/-- Height of the first block of the retarget window in
GetNextWorkRequired (the expression guarded by the assertion
nHeightFirst >= 0). -/
def nHeightFirstOf (lastHeight : Int) (params : ConsensusParams) : Int :=
  lastHeight - (DifficultyAdjustmentInterval params - 1)

/-- Ancestor lookup: the block of the chain at the given height
(GetAncestor of CBlockIndex over the chain list). -/
def GetAncestor (chain : List BlockIndexRec) (height : Int) : Option BlockIndexRec :=
  chain.find? fun b => b.nHeight == height

/-- Walk of the testnet branch of GetNextWorkRequired: step back to
the parent while the current block is at a non-boundary height and
carries the minimum-difficulty nBits.  The list argument holds the
ancestors of the current block, nearest first. -/
def walkMinDiff (interval : Int) (limit : Nat) : BlockIndexRec → List BlockIndexRec → Nat
  | cur, [] => cur.nBits
  | cur, prev :: rest =>
    if cur.nHeight % interval ≠ 0 ∧ cur.nBits = limit then walkMinDiff interval limit prev rest
    else cur.nBits

/-- GetNextWorkRequired of the pow translation unit, over a chain
given as the list of block records ordered by height with the tip
last.  The two assertions of the source (non-null tip, found ancestor
with non-negative height) are modelled as a none result. -/
def GetNextWorkRequired (chain : List BlockIndexRec) (pblockTime : Int)
    (params : ConsensusParams) : Option Nat :=
  match chain.getLast? with
  | none => none
  | some pindexLast =>
    let nProofOfWorkLimit := GetCompact params.powLimit
    if (pindexLast.nHeight + 1) % DifficultyAdjustmentInterval params ≠ 0 then
      if params.fPowAllowMinDifficultyBlocks then
        if pindexLast.nTime + params.nPowTargetSpacing * 2 < pblockTime then
          some nProofOfWorkLimit
        else
          some (walkMinDiff (DifficultyAdjustmentInterval params) nProofOfWorkLimit
            pindexLast chain.reverse.tail)
      else some pindexLast.nBits
    else
      if nHeightFirstOf pindexLast.nHeight params < 0 then none
      else
        match GetAncestor chain (nHeightFirstOf pindexLast.nHeight params) with
        | none => none
        | some pindexFirst =>
          some (CalculateNextWorkRequired pindexLast pindexFirst.nTime params)

/-- Blakecoin main-network style parameters used by the concrete
scenarios: 3600 second timespan, 180 second spacing, the Bitcoin
genesis power limit 0xffff * 2^208, no testnet or regtest flags. -/
def mainParams : ConsensusParams :=
  { powLimit := 0xffff * 2 ^ 208
    nPowTargetTimespan := 3600
    nPowTargetSpacing := 180
    fPowAllowMinDifficultyBlocks := false
    fPowNoRetargeting := false }

/-- Synthetic 20-block ancestor chain of claim C6: blocks at heights
0..19, consecutive timestamps spaced exactly 180 = 3600 / 20 seconds
apart starting at t0, all carrying the same nBits. -/
def syntheticChain (startBits : Nat) (t0 : Int) : List BlockIndexRec :=
  [⟨0, t0, startBits⟩, ⟨1, t0 + 180, startBits⟩, ⟨2, t0 + 360, startBits⟩,
   ⟨3, t0 + 540, startBits⟩, ⟨4, t0 + 720, startBits⟩, ⟨5, t0 + 900, startBits⟩,
   ⟨6, t0 + 1080, startBits⟩, ⟨7, t0 + 1260, startBits⟩, ⟨8, t0 + 1440, startBits⟩,
   ⟨9, t0 + 1620, startBits⟩, ⟨10, t0 + 1800, startBits⟩, ⟨11, t0 + 1980, startBits⟩,
   ⟨12, t0 + 2160, startBits⟩, ⟨13, t0 + 2340, startBits⟩, ⟨14, t0 + 2520, startBits⟩,
   ⟨15, t0 + 2700, startBits⟩, ⟨16, t0 + 2880, startBits⟩, ⟨17, t0 + 3060, startBits⟩,
   ⟨18, t0 + 3240, startBits⟩, ⟨19, t0 + 3420, startBits⟩]

/-
Theorems.  Helper lemmas come first, then one theorem per claim (with
its witness or counterexample where required).
-/

theorem compress_t0 (st : HashState) (b : List Nat) : (compress st b).t0 = st.t0 := rfl

theorem compress_t1 (st : HashState) (b : List Nat) : (compress st b).t1 = st.t1 := rfl

theorem compress_buflen (st : HashState) (b : List Nat) : (compress st b).buflen = st.buflen := rfl

theorem G_eq_specG (m : List Nat) (e i a b c d : Nat) (v : List Nat) :
    G m e i a b c d v =
      specG (nth m (sig e i)) (nth m (sig e (i+1))) (nth blake256_cst (sig e i))
        (nth blake256_cst (sig e (i+1))) a b c d v := rfl

theorem round14_eq_specRound (m : List Nat) (r : Nat) (v : List Nat) :
    round14 m r v = specRound m r v := by
  simp only [round14, specRound, specPattern, List.foldl_cons, List.foldl_nil, G_eq_specG]

theorem specWords_eq (block : List Nat) : specWords block = bytesToWordsLE block := rfl

/-- C1: for every 64-byte block, the compression function of the
source equals the reference algorithm stated by the claim (little
endian word parsing, v[0..7] = h, v[8..15] = IV, t0 into v[12], t1
into v[13], complemented v[14] under the null-t flag, 14 rounds of the
eight cross-wired G calls with rotations 16, 12, 8, 7, and the final
fold h[i] XOR= v[i] XOR v[i+8]); only the chain values change. -/
theorem claim_C1 (st : HashState) (block : List Nat) (hlen : block.length = 64) :
    compress st block = { st with h := specCompress st.h st.t0 st.t1 st.nullt block } := by
  have hfun : (fun (w : List Nat) (r : Nat) => round14 (bytesToWordsLE block) r w)
      = fun w r => specRound (bytesToWordsLE block) r w := by
    funext w r
    exact round14_eq_specRound _ _ _
  simp only [compress, specCompress, specWords_eq, hfun]

/-- C1 witness: the identity of claim C1 instantiated at the reset
state and the all-zero 64-byte block. -/
theorem claim_C1_witness :
    compress Reset (List.replicate 64 0) =
      { Reset with h := specCompress Reset.h Reset.t0 Reset.t1 Reset.nullt (List.replicate 64 0) } :=
  claim_C1 Reset (List.replicate 64 0) (by decide)

/-- C2: the published 14-round Blake-256 test vectors (empty message,
a single zero byte, 72 zero bytes) are reproduced by the published
reference algorithm refHash, but the digests computed by the code
differ from them: on the empty message and on the ASCII string BLAKE
the code disagrees with the published algorithm, because Finalize
writes the padding marker bytes 0x01 and 0x00 (the published padding
is 0x80 and 0x01), omits the final t adjustment by 8 bits, and
compress deviates from published Blake-256 in its word order and
working-vector setup. -/
theorem claim_C2 :
    refHash [] = publishedEmptyDigest ∧
    refHash [0x00] = publishedOneZeroDigest ∧
    refHash (List.replicate 72 0x00) = published72ZeroDigest ∧
    Hashblake [] ≠ some publishedEmptyDigest ∧
    Hashblake blakeAscii ≠ some (refHash blakeAscii) := by decide

/-- C7: writing 64 zero bytes as two 32-byte chunks yields a digest
different from writing them in one call, because the Write of the
second chunk ends exactly at the block boundary and leaves the member
buflen at its stale value 32 instead of 0. -/
theorem claim_C7 :
    Finalize 128 (Write (Write Reset (List.replicate 32 0)) (List.replicate 32 0)) ≠
      Finalize 128 (Write Reset (List.replicate 32 0 ++ List.replicate 32 0)) := by decide

/-- C9: a Write of length zero leaves the state unchanged, for every
state satisfying the buffer invariant. -/
theorem claim_C9 (st : HashState) (hb : st.buflen < 64) : Write st [] = st := by
  have h1 : ¬(st.buflen ≠ 0 ∧ 64 - st.buflen ≤ (0 : Nat)) := by omega
  simp only [Write, List.length_nil, writeBlocks, List.take_nil, List.drop_nil]
  rw [if_neg h1]
  simp

/-- C9 witness: a zero-length Write on the reset state. -/
theorem claim_C9_witness : Write Reset [] = Reset := claim_C9 Reset (by decide)

/-- C10: at a retarget boundary of the 20-block adjustment interval,
the height of the first window block is non-negative for every tip of
non-negative height, so the assertion guarding the ancestor lookup in
GetNextWorkRequired cannot fail. -/
theorem claim_C10 (h : Int) (params : ConsensusParams)
    (hi : DifficultyAdjustmentInterval params = 20) (hh : 0 ≤ h)
    (hb : (h + 1) % DifficultyAdjustmentInterval params = 0) :
    0 ≤ nHeightFirstOf h params := by
  rw [hi] at hb
  rw [nHeightFirstOf, hi]
  omega

/-- C10 witness: the boundary tip of height 19 under the Blakecoin
parameters. -/
theorem claim_C10_witness : 0 ≤ nHeightFirstOf 19 mainParams :=
  claim_C10 19 mainParams (by decide) (by decide) (by decide)

theorem addT512_buflen (st : HashState) : (addT512 st).buflen = st.buflen := rfl

theorem subT0_buflen (st : HashState) (x : Nat) : (subT0 st x).buflen = st.buflen := rfl

theorem Write_one_lt (st : HashState) (b : Nat) (hb : st.buflen < 63) :
    (Write st [b]).buflen = st.buflen + 1 := by
  simp only [Write, List.length_singleton, writeBlocks]
  split_ifs with h1 h2
  all_goals first | omega | simp_all

theorem Write_one_63 (st : HashState) (b : Nat) (hb : st.buflen = 63) :
    (Write st [b]).buflen = 63 := by
  simp only [Write, hb, List.length_singleton]
  norm_num [writeBlocks, compress_buflen, addT512_buflen]

theorem padWhileNonzero_stuck (f : Nat) (st : HashState)
    (h1 : 56 ≤ st.buflen) (h2 : st.buflen ≤ 63) : padWhileNonzero f st = none := by
  induction f generalizing st with
  | zero =>
    rw [padWhileNonzero, if_neg (by omega)]
  | succ f ih =>
    rw [padWhileNonzero, if_neg (by omega)]
    by_cases hc : st.buflen < 63
    · exact ih (Write st [0x00]) (by rw [Write_one_lt st 0x00 hc]; omega)
        (by rw [Write_one_lt st 0x00 hc]; omega)
    · have h63 : st.buflen = 63 := by omega
      exact ih (Write st [0x00]) (by rw [Write_one_63 st 0x00 h63]; omega)
        (by rw [Write_one_63 st 0x00 h63])

/-- C3: for every state whose buffer holds 56 to 63 pending bytes,
Finalize never terminates, for any amount of fuel: it enters the
two-compression padding branch, whose loop writing zero bytes while
buflen is nonzero gets stuck because a Write that ends exactly at the
block boundary leaves buflen at the stale value 63.  This refutes the
part of the claim asserting that Finalize compresses the final blocks
and emits the digest for every buflen in 0..63; for buflen up to 55
the padding does proceed as the claim describes. -/
theorem claim_C3 (fuel : Nat) (st : HashState) (h1 : 56 ≤ st.buflen) (h2 : st.buflen ≤ 63) :
    Finalize fuel st = none := by
  have hb55 : ¬(st.buflen = 55) := by omega
  have hlt : ¬(st.buflen < 55) := by omega
  have hw : 56 ≤ (Write (subT0 st (512 - (st.buflen <<< 3))) [0x01]).buflen ∧
      (Write (subT0 st (512 - (st.buflen <<< 3))) [0x01]).buflen ≤ 63 := by
    by_cases hc : st.buflen < 63
    · rw [Write_one_lt _ 0x01 (by rw [subT0_buflen]; omega)]
      rw [subT0_buflen]
      omega
    · rw [Write_one_63 _ 0x01 (by rw [subT0_buflen]; omega)]
      omega
  simp only [Finalize, if_neg hb55, if_neg hlt,
    padWhileNonzero_stuck fuel _ hw.1 hw.2]

/-- C3 witness: Finalize diverges after writing a 56-byte message. -/
theorem claim_C3_witness : Finalize 1000 (Write Reset (List.replicate 56 0)) = none :=
  claim_C3 1000 (Write Reset (List.replicate 56 0)) (by decide) (by decide)

theorem setCompactValue_mantissa_zero (nCompact : Nat)
    (h : nCompact &&& 0x007fffff = 0) : setCompactValue nCompact = 0 := by
  simp [setCompactValue, h]

/-- C4: CheckProofOfWork returns true exactly when the compact target
is well formed (sign bit not set, expanded value nonzero, no overflow,
at most the power limit) and the hash value is at most the expanded
target; every malformed encoding yields an ordinary false return. -/
theorem claim_C4 (hash nBits : Nat) (params : ConsensusParams) :
    CheckProofOfWork hash nBits params = true ↔
      (¬(nBits &&& 0x00800000 ≠ 0 ∨ setCompactValue nBits = 0 ∨
          setCompactOverflow nBits = true ∨ params.powLimit < setCompactValue nBits) ∧
        hash ≤ setCompactValue nBits) := by
  simp only [CheckProofOfWork]
  split_ifs with h1 h2
  · simp only [Bool.false_eq_true, false_iff]
    intro hcon
    rcases h1 with hneg | hz | hov | hlim
    · rw [setCompactNegative] at hneg
      rcases Bool.and_eq_true _ _ |>.mp hneg with ⟨hm, hs⟩
      exact hcon.1 (Or.inl (of_decide_eq_true hs))
    · exact hcon.1 (Or.inr (Or.inl hz))
    · exact hcon.1 (Or.inr (Or.inr (Or.inl hov)))
    · exact hcon.1 (Or.inr (Or.inr (Or.inr hlim)))
  · simp only [Bool.false_eq_true, false_iff]
    intro hcon
    omega
  · simp only [true_iff]
    constructor
    · intro hcon
      rcases hcon with hneg | hz | hov | hlim
      · by_cases hm : nBits &&& 0x007fffff = 0
        · exact h1 (Or.inr (Or.inl (setCompactValue_mantissa_zero nBits hm)))
        · refine h1 (Or.inl ?_)
          rw [setCompactNegative]
          exact Bool.and_eq_true _ _ |>.mpr ⟨decide_eq_true hm, decide_eq_true hneg⟩
      · exact h1 (Or.inr (Or.inl hz))
      · exact h1 (Or.inr (Or.inr (Or.inl hov)))
      · exact h1 (Or.inr (Or.inr (Or.inr hlim)))
    · omega

/-- C5: the timespan clamp of CalculateNextWorkRequired behaves as the
claim states: for positive target timespan T, at heights 3500 and
above a timespan below T/4 is clamped to T*100/103; below height 3500
a timespan below T*100/115 is clamped to T*100/115; any timespan above
T*2 is clamped to exactly T*2 at every height, and for the raw
timespan T/8 with T = 3600 the clamped values at heights 3499 and 3500
are the two different floors. -/
theorem claim_C5 :
    (∀ a h T : Int, 0 < T → 3500 ≤ h → a < T.tdiv 4 →
      clampTimespan a h T = (T * 100).tdiv 103) ∧
    (∀ a h T : Int, 0 < T → h < 3500 → a < (T * 100).tdiv 115 →
      clampTimespan a h T = (T * 100).tdiv 115) ∧
    (∀ a h T : Int, 0 < T → T * 2 < a → clampTimespan a h T = T * 2) ∧
    clampTimespan ((3600 : Int).tdiv 8) 3499 3600 = (3600 * 100 : Int).tdiv 115 ∧
    clampTimespan ((3600 : Int).tdiv 8) 3500 3600 = (3600 * 100 : Int).tdiv 103 ∧
    ((3600 * 100 : Int).tdiv 115 ≠ (3600 * 100 : Int).tdiv 103) := by
  refine ⟨?_, ?_, ?_, by decide, by decide, by decide⟩
  · intro a h T hT hh ha
    have e4 : T.tdiv 4 = T / 4 := Int.tdiv_eq_ediv (by omega) (by omega)
    have e103 : (T * 100).tdiv 103 = T * 100 / 103 := Int.tdiv_eq_ediv (by omega) (by omega)
    have e115 : (T * 100).tdiv 115 = T * 100 / 115 := Int.tdiv_eq_ediv (by omega) (by omega)
    rw [e4] at ha
    simp only [clampTimespan, e4, e103, e115]
    split_ifs with h1 h2 h3 <;> omega
  · intro a h T hT hh ha
    have e4 : T.tdiv 4 = T / 4 := Int.tdiv_eq_ediv (by omega) (by omega)
    have e103 : (T * 100).tdiv 103 = T * 100 / 103 := Int.tdiv_eq_ediv (by omega) (by omega)
    have e115 : (T * 100).tdiv 115 = T * 100 / 115 := Int.tdiv_eq_ediv (by omega) (by omega)
    rw [e115] at ha
    simp only [clampTimespan, e4, e103, e115]
    split_ifs with h1 h2 h3 <;> omega
  · intro a h T hT ha
    have e4 : T.tdiv 4 = T / 4 := Int.tdiv_eq_ediv (by omega) (by omega)
    have e103 : (T * 100).tdiv 103 = T * 100 / 103 := Int.tdiv_eq_ediv (by omega) (by omega)
    have e115 : (T * 100).tdiv 115 = T * 100 / 115 := Int.tdiv_eq_ediv (by omega) (by omega)
    simp only [clampTimespan, e4, e103, e115]
    split_ifs with h1 h2 h3 <;> omega

/-- C5 witness: the first clamp branch at a concrete fast timespan and
height above the policy threshold. -/
theorem claim_C5_witness : clampTimespan 100 4000 3600 = (3600 * 100 : Int).tdiv 103 :=
  claim_C5.1 100 4000 3600 (by decide) (by decide) (by decide)

theorem ctr64_compress (st : HashState) (b : List Nat) : ctr64 (compress st b) = ctr64 st := rfl

theorem addT512_spec (st : HashState) (h0 : st.t0 < M32) (h1 : st.t1 < M32) (hm : st.t0 % 512 = 0) :
    (addT512 st).t0 < M32 ∧ (addT512 st).t1 < M32 ∧ (addT512 st).t0 % 512 = 0 ∧
      ctr64 (addT512 st) = (ctr64 st + 512) % M64 := by
  simp only [addT512, ctr64, M32, M64] at *
  split_ifs with hz
  · refine ⟨by omega, by omega, by omega, by omega⟩
  · refine ⟨by omega, by omega, by omega, by omega⟩

theorem writeBlocks_spec (f : Nat) (st : HashState) (data : List Nat)
    (hf : data.length ≤ f) (h0 : st.t0 < M32) (h1 : st.t1 < M32) (hm : st.t0 % 512 = 0) :
    (writeBlocks f st data).1.t0 < M32 ∧ (writeBlocks f st data).1.t1 < M32 ∧
      (writeBlocks f st data).1.t0 % 512 = 0 ∧
      (writeBlocks f st data).1.buflen = st.buflen ∧
      (writeBlocks f st data).2.length < 64 ∧
      ctr64 (writeBlocks f st data).1 = (ctr64 st + 512 * (data.length / 64)) % M64 := by
  induction f generalizing st data with
  | zero =>
    have hd : data = [] := List.length_eq_zero.mp (by omega)
    subst hd
    simp only [writeBlocks, List.length_nil]
    refine ⟨h0, h1, hm, trivial, by omega, ?_⟩
    simp only [ctr64, M32, M64] at *
    omega
  | succ f ih =>
    rw [writeBlocks]
    split_ifs with hlen
    · have ha := addT512_spec st h0 h1 hm
      have hc : (compress (addT512 st) (data.take 64)).t0 < M32 := by
        rw [compress_t0]; exact ha.1
      have hc1 : (compress (addT512 st) (data.take 64)).t1 < M32 := by
        rw [compress_t1]; exact ha.2.1
      have hcm : (compress (addT512 st) (data.take 64)).t0 % 512 = 0 := by
        rw [compress_t0]; exact ha.2.2.1
      have hflen : (data.drop 64).length ≤ f := by
        simp only [List.length_drop]
        omega
      have hrec := ih (compress (addT512 st) (data.take 64)) (data.drop 64) hflen hc hc1 hcm
      refine ⟨hrec.1, hrec.2.1, hrec.2.2.1, ?_, hrec.2.2.2.2.1, ?_⟩
      · rw [hrec.2.2.2.1, compress_buflen, addT512_buflen]
      · rw [hrec.2.2.2.2.2, ctr64_compress, ha.2.2.2]
        simp only [List.length_drop]
        have hk : (data.length - 64) / 64 + 1 = data.length / 64 := by omega
        rw [Nat.mod_add_mod]
        rw [show ctr64 st + 512 + 512 * ((data.length - 64) / 64)
            = ctr64 st + 512 * ((data.length - 64) / 64 + 1) by ring]
        rw [hk]
    · simp only [writeBlocks]
      refine ⟨h0, h1, hm, trivial, by omega, ?_⟩
      have hk : data.length / 64 = 0 := by omega
      rw [hk]
      simp only [ctr64, M32, M64] at *
      omega

theorem writeBlocks_small (f : Nat) (st : HashState) (data : List Nat)
    (h : data.length < 64) : writeBlocks f st data = (st, data) := by
  cases f with
  | zero => rfl
  | succ f => rw [writeBlocks, if_neg (by omega)]

/-- C8: the hash-state invariant holds after Reset and is preserved by
every Write: the buffer fill count stays in 0..63, the low counter
word stays a multiple of 512 below 2^32, and across a Write the 64-bit
counter advances modulo 2^64 by exactly 512 for each of the
(buflen + len) / 64 blocks compressed during that call, with the carry
from t0 into t1 realized on 32-bit overflow. -/
theorem claim_C8 :
    (Reset.buflen < 64 ∧ Reset.t0 % 512 = 0 ∧ Reset.t0 < M32 ∧ Reset.t1 < M32) ∧
    ∀ st data, st.buflen < 64 → st.t0 % 512 = 0 → st.t0 < M32 → st.t1 < M32 →
      ((Write st data).buflen < 64 ∧ (Write st data).t0 % 512 = 0 ∧
        (Write st data).t0 < M32 ∧ (Write st data).t1 < M32 ∧
        ctr64 (Write st data) = (ctr64 st + 512 * ((st.buflen + data.length) / 64)) % M64) := by
  refine ⟨⟨by decide, by decide, by decide, by decide⟩, ?_⟩
  intro st data hb hm h0 h1
  have hctrlt : ctr64 st < M64 := by
    simp only [ctr64, M32, M64] at *
    omega
  by_cases hcond : st.buflen ≠ 0 ∧ 64 - st.buflen ≤ data.length
  · simp only [Write]
    rw [if_pos hcond]
    have ha := addT512_spec
      { st with buf := setRange st.buf st.buflen (List.take (64 - st.buflen) data) } h0 h1 hm
    have hc0 : (compress (addT512 { st with buf := setRange st.buf st.buflen (List.take (64 - st.buflen) data) }) (setRange st.buf st.buflen (List.take (64 - st.buflen) data))).t0 < M32 := by
      rw [compress_t0]; exact ha.1
    have hc1 : (compress (addT512 { st with buf := setRange st.buf st.buflen (List.take (64 - st.buflen) data) }) (setRange st.buf st.buflen (List.take (64 - st.buflen) data))).t1 < M32 := by
      rw [compress_t1]; exact ha.2.1
    have hcm : (compress (addT512 { st with buf := setRange st.buf st.buflen (List.take (64 - st.buflen) data) }) (setRange st.buf st.buflen (List.take (64 - st.buflen) data))).t0 % 512 = 0 := by
      rw [compress_t0]; exact ha.2.2.1
    have hws := writeBlocks_spec (List.drop (64 - st.buflen) data).length
      (compress (addT512 { st with buf := setRange st.buf st.buflen (List.take (64 - st.buflen) data) }) (setRange st.buf st.buflen (List.take (64 - st.buflen) data)))
      (List.drop (64 - st.buflen) data) le_rfl hc0 hc1 hcm
    have hctr1 : ctr64 (compress (addT512 { st with buf := setRange st.buf st.buflen (List.take (64 - st.buflen) data) }) (setRange st.buf st.buflen (List.take (64 - st.buflen) data)))
        = (ctr64 st + 512) % M64 := by
      rw [ctr64_compress]
      exact ha.2.2.2
    have hkey : (ctr64 st + 512 + 512 * ((data.length - (64 - st.buflen)) / 64)) % M64
        = (ctr64 st + 512 * ((st.buflen + data.length) / 64)) % M64 := by
      have h2 := hcond.2
      have hq : (data.length - (64 - st.buflen)) / 64 + 1 = (st.buflen + data.length) / 64 := by
        omega
      have h512 : 512 + 512 * ((data.length - (64 - st.buflen)) / 64)
          = 512 * ((st.buflen + data.length) / 64) := by omega
      rw [Nat.add_assoc, h512]
    split_ifs with hrest
    · refine ⟨hws.2.2.2.2.1, hws.2.2.1, hws.1, hws.2.1, ?_⟩
      show ctr64 (writeBlocks (List.drop (64 - st.buflen) data).length
          (compress (addT512 { st with buf := setRange st.buf st.buflen (List.take (64 - st.buflen) data) }) (setRange st.buf st.buflen (List.take (64 - st.buflen) data)))
          (List.drop (64 - st.buflen) data)).1 = _
      rw [hws.2.2.2.2.2, hctr1, Nat.mod_add_mod, List.length_drop]
      exact hkey
    · refine ⟨?_, hws.2.2.1, hws.1, hws.2.1, ?_⟩
      · rw [hws.2.2.2.1, compress_buflen, addT512_buflen]
        exact hb
      · rw [hws.2.2.2.2.2, hctr1, Nat.mod_add_mod, List.length_drop]
        exact hkey
  · simp only [Write]
    rw [if_neg hcond]
    rcases Decidable.em (st.buflen = 0) with hz | hnz
    · have hws := writeBlocks_spec data.length st data le_rfl h0 h1 hm
      split_ifs with hrest
      · refine ⟨?_, hws.2.2.1, hws.1, hws.2.1, ?_⟩
        · show st.buflen + (writeBlocks data.length st data).2.length < 64
          have := hws.2.2.2.2.1
          omega
        · show ctr64 (writeBlocks data.length st data).1 = _
          rw [hws.2.2.2.2.2, hz, Nat.zero_add]
      · refine ⟨?_, hws.2.2.1, hws.1, hws.2.1, ?_⟩
        · rw [hws.2.2.2.1]
          exact hb
        · rw [hws.2.2.2.2.2, hz, Nat.zero_add]
    · have hsmall : data.length < 64 := by omega
      rw [writeBlocks_small data.length st data hsmall]
      have hk : (st.buflen + data.length) / 64 = 0 := by omega
      split_ifs with hrest
      · refine ⟨?_, hm, h0, h1, ?_⟩
        · show st.buflen + data.length < 64
          omega
        · show ctr64 st = _
          rw [hk, Nat.mul_zero, Nat.add_zero, Nat.mod_eq_of_lt hctrlt]
      · refine ⟨hb, hm, h0, h1, ?_⟩
        show ctr64 st = _
        rw [hk, Nat.mul_zero, Nat.add_zero, Nat.mod_eq_of_lt hctrlt]

/-- C8 witness: the preservation part applied to the reset state and a
70-byte write, which compresses exactly one block. -/
theorem claim_C8_witness :
    (Write Reset (List.replicate 70 1)).buflen < 64 ∧
      (Write Reset (List.replicate 70 1)).t0 % 512 = 0 ∧
      (Write Reset (List.replicate 70 1)).t0 < M32 ∧
      (Write Reset (List.replicate 70 1)).t1 < M32 ∧
      ctr64 (Write Reset (List.replicate 70 1)) =
        (ctr64 Reset + 512 * ((Reset.buflen + (List.replicate 70 1).length) / 64)) % M64 :=
  claim_C8.2 Reset (List.replicate 70 1) (by decide) (by decide) (by decide) (by decide)

/-- C6 counterexample: on the synthetic 20-block chain spaced exactly
180 = 3600 / 20 seconds apart with starting nBits 0x1d00ffff, the
retarget result decodes to less than 96 percent of the starting
target (it is 3420 / 3600 = 95 percent of it), far outside
compact-encoding rounding, so the claimed no-op retarget fails. -/
theorem claim_C6_counterexample :
    (GetNextWorkRequired (syntheticChain 0x1d00ffff 1000000) 1003600 mainParams).map setCompactValue
        = some 25611455682425911443121017841913881934803792380653853783089425154048 ∧
      25611455682425911443121017841913881934803792380653853783089425154048 * 100 <
        setCompactValue 0x1d00ffff * 96 := by decide

/-- C6 (amended): on the synthetic 20-block chain with timestamps
spaced exactly targetTimespan/20 = 180 seconds apart, the retarget
computation at the boundary returns the compact encoding of the
starting target scaled by 3420 / 3600 (the code measures the 19
inter-block gaps of the 20-block window, not 20), for every starting
nBits and Blakecoin-style parameters for which the product does not
wrap and the result is below the power limit; it is not the starting
target unchanged. -/
theorem claim_C6_amended (startBits : Nat) (t0 pt : Int) (params : ConsensusParams)
    (hts : params.nPowTargetTimespan = 3600) (hsp : params.nPowTargetSpacing = 180)
    (hnr : params.fPowNoRetargeting = false)
    (hwrap : setCompactValue startBits * 3420 < M256)
    (hlim : setCompactValue startBits * 3420 / 3600 ≤ params.powLimit) :
    GetNextWorkRequired (syntheticChain startBits t0) pt params =
      some (GetCompact (setCompactValue startBits * 3420 / 3600)) := by
  have hint : DifficultyAdjustmentInterval params = 20 := by
    rw [DifficultyAdjustmentInterval, hts, hsp]
    decide
  have hlast : (syntheticChain startBits t0).getLast? = some ⟨19, t0 + 3420, startBits⟩ := rfl
  have hanc : GetAncestor (syntheticChain startBits t0) 0 = some ⟨0, t0, startBits⟩ := rfl
  have htime : t0 + 3420 - t0 = (3420 : Int) := by ring
  have hcl : clampTimespan 3420 19 3600 = 3420 := by decide
  have hemod : ((3420 : Int).emod M64).toNat = 3420 := by decide
  have hemodT : ((3600 : Int).emod M64).toNat = 3600 := by decide
  have hcalc : CalculateNextWorkRequired ⟨19, t0 + 3420, startBits⟩ t0 params
      = GetCompact (setCompactValue startBits * 3420 / 3600) := by
    rw [CalculateNextWorkRequired, hnr]
    simp only [Bool.false_eq_true, if_false, hts]
    show GetCompact _ = _
    rw [htime, hcl, hemod, hemodT, Nat.mod_eq_of_lt hwrap, if_neg (not_lt.mpr hlim)]
  rw [GetNextWorkRequired, hlast]
  simp only [hint]
  rw [if_neg (by norm_num)]
  have hfirst : nHeightFirstOf (19 : Int) params = 0 := by
    rw [nHeightFirstOf, hint]
    norm_num
  rw [hfirst]
  rw [if_neg (by norm_num), hanc]
  show some (CalculateNextWorkRequired ⟨19, t0 + 3420, startBits⟩ t0 params) = _
  rw [hcalc]

/-- C6 witness: the amended retarget identity at the Bitcoin-genesis
compact target under the Blakecoin parameters. -/
theorem claim_C6_witness :
    GetNextWorkRequired (syntheticChain 0x1d00ffff 1000000) 0 mainParams =
      some (GetCompact (setCompactValue 0x1d00ffff * 3420 / 3600)) :=
  claim_C6_amended 0x1d00ffff 1000000 0 mainParams (by decide) (by decide) (by decide)
    (by decide) (by decide)

end Blakecoin
